import Mathlib

/-!
# Execution worker (`src/cee/main.go`): scheduler, case runner and sandbox driver

A shallow embedding of the submission scheduler (`Message_Handler`), the case
runner (`RunCode`) and the two sandbox drivers (`executeCode`, `compileCode`).

Conventions of the embedding.

* Go `string` and `[]byte` values are finite sequences of symbols; both are
  rendered as `String`, and the conversions `string(b)` / `[]byte(s)` are the
  identity.
* Go `int` is rendered as `Int`.  An index expression `xs[i]` that Go would
  abort with a run-time panic is rendered as `Except.error Halt.panic`.
* Library routines (`encoding/base64`, `bytes.Replace`) are not part of the
  repository; the model takes them as the fields of a `GoLib` value and every
  theorem holds for all of them.
* `strings.TrimSpace` and `strings.Replace(s, old, new, 1)`, which decide the
  result of `injectUsernamePasswordToRabbitMQURL`, are defined from their
  documentation.
* The fan-out loop and its goroutines, as far as the guard channel goes, are a
  step function on a state (`Sched`); an execution is a sequence of enabled
  steps of the loop and of the goroutines, in any interleaving.
* A `select` statement is rendered as a `match` on the event that the Go
  runtime picked; the picked event, and the result of reading the container
  logs, are inputs of the driver models.
* The container runtime is observed through the sequence of calls a driver
  issues (`Action`), in program order.  Errors of `ContainerCreate`,
  `CopyToContainer`, `ContainerStart`, `ContainerAttach` and of the stdin write
  are only logged by the source and do not change the control flow, so they are
  not inputs.
* A call of `Put_Execution_Result_To_Channel` is one of these actions: it
  records the send statement the driver executes.  The occupancy of the
  buffered channel (capacity N) is not part of the driver models; the collector
  sees the channel as the sequence of outcomes it delivers (`arrivals`).
-/

namespace Cee

/-! ## Data model -/

/-- Modelled from the spec: the element type of `Submission.Replace`, whose Go
declaration is not in `main.go`; the fields `From` and `To` are the ones
`Message_Handler` reads (both base64 text). -/
structure Replace where
  From : String
  To : String
  deriving DecidableEq, Repr

/-- Modelled from the spec: the submission record of §3, whose Go declaration is
not in `main.go`; field names are the ones `Message_Handler` uses. -/
structure Submission where
  SubmissionID : String
  Language : String
  Code : String
  Stdin : List String
  Replace : List (List Replace)
  TimeLimit : List Int
  MemoryLimit : List Int
  Stdout : List String
  Stderr : List String
  Status : String
  deriving DecidableEq, Repr

/-- Modelled from the spec: the execution outcome of §3 (`{index, stdout,
stderr}`), whose Go declaration is not in `main.go`; field names are the ones
used by the composite literals of `main.go`. -/
structure Execution_Result where
  Submission_Index : Int
  Stdout : String
  Stderr : String
  deriving DecidableEq, Repr

/-- The ways a Go routine fails to return: a run-time panic (index out of
range), or a receive that blocks for ever. -/
inductive Halt where
  | panic
  | blocked
  deriving DecidableEq, Repr

/-- The library routines `main.go` calls on data.  `DecodeString` is the byte
slice returned by `base64.StdEncoding.DecodeString` (its error is only logged
by the source); `ReplaceAll s old new` is `bytes.Replace(s, old, new, -1)`. -/
structure GoLib where
  EncodeToString : String → String
  DecodeString : String → String
  ReplaceAll : String → String → String → String

/-! ## `Message_Handler`, lines 279-295: collect, re-order, append -/

/-- The zero value of `Execution_Result`, with which `make` fills a slice. -/
def zeroResult : Execution_Result := ⟨0, "", ""⟩

/-- Lines 279-283: receive exactly `n` outcomes from the outcome channel;
`arrivals` is the sequence of outcomes the channel delivers, in completion
order.  With fewer than `n` arrivals the receive blocks. -/
def collectOutcomes (n : Nat) (arrivals : List Execution_Result) :
    Except Halt (List Execution_Result) :=
  if n ≤ arrivals.length then .ok (arrivals.take n) else .error .blocked

/-- Line 288: `reordered[result.Submission_Index] = result`. -/
def storeResult (reordered : List Execution_Result) (result : Execution_Result) :
    Except Halt (List Execution_Result) :=
  if 0 ≤ result.Submission_Index ∧ result.Submission_Index.toNat < reordered.length then
    .ok (reordered.set result.Submission_Index.toNat result)
  else
    .error .panic

/-- Lines 286-289: the re-order buffer has the length of the collected list and
is written by index, in collection order. -/
def reorderResults (submission_results : List Execution_Result) :
    Except Halt (List Execution_Result) :=
  submission_results.foldlM storeResult
    (List.replicate submission_results.length zeroResult)

/-- Lines 290-295: append the base64 text of every re-ordered outcome to the
record's `Stdout` and `Stderr`. -/
def appendResults (lib : GoLib) (submission : Submission)
    (reordered : List Execution_Result) : Submission :=
  reordered.foldl
    (fun s result =>
      { s with
        Stdout := s.Stdout ++ [lib.EncodeToString result.Stdout]
        Stderr := s.Stderr ++ [lib.EncodeToString result.Stderr] })
    submission

/-- Lines 279-295 of `Message_Handler`: the record handed to
`Save_Submission_To_Redis`, from the loaded record and the arrivals on the
outcome channel. -/
def collectAndAppend (lib : GoLib) (submission : Submission)
    (arrivals : List Execution_Result) : Except Halt Submission := do
  let submission_results ← collectOutcomes submission.Stdin.length arrivals
  let reordered ← reorderResults submission_results
  pure (appendResults lib submission reordered)

/-! ## `Message_Handler`, lines 250-278: fan-out -/

/-- The arguments of one `RunCode` invocation started by the fan-out loop. -/
structure RunCodeCall where
  code : String
  input : String
  language : String
  time_limit : Int
  mem_limit_mb : Int
  submission_index : Int
  submission_id : String
  deriving DecidableEq, Repr

/-- An index expression `xs[i]` of Go, for a loop index `i`. -/
def index {α : Type} (xs : List α) (i : Nat) : Except Halt α :=
  match xs[i]? with
  | some x => .ok x
  | none => .error .panic

/-- Lines 261-271: the inner loop over `submission.Replace[index]`, threading
the local `code` through `bytes.Replace(code, from, to, -1)`. -/
def applyReplaces (lib : GoLib) (code : String) (replaces : List Replace) : String :=
  match replaces with
  | [] => code
  | r :: rest =>
    let from_ := lib.DecodeString r.From
    let to_ := lib.DecodeString r.To
    applyReplaces lib (lib.ReplaceAll code from_ to_) rest

/-- Lines 251-277: the body of the fan-out loop for one `index`, up to and
including the `go` statement; the result is the argument list of the `RunCode`
call it starts.  `submission_id` is the identifier parsed from the delivery. -/
def fanOutBody (lib : GoLib) (submission : Submission) (submission_id : String)
    (index : Nat) (code_input : String) : Except Halt RunCodeCall := do
  let code_input_decoded := lib.DecodeString code_input
  let code := lib.DecodeString submission.Code
  let replaces ← Cee.index submission.Replace index
  let code := applyReplaces lib code replaces
  let time_limit ← Cee.index submission.TimeLimit index
  let mem_limit ← Cee.index submission.MemoryLimit index
  pure ⟨code, code_input_decoded, submission.Language, time_limit, mem_limit, index,
    submission_id⟩

/-- The fan-out loop from position `index` on, over the remaining inputs. -/
def fanOutFrom (lib : GoLib) (submission : Submission) (submission_id : String)
    (index : Nat) (inputs : List String) : Except Halt (List RunCodeCall) :=
  match inputs with
  | [] => .ok []
  | code_input :: rest => do
    let call ← fanOutBody lib submission submission_id index code_input
    let calls ← fanOutFrom lib submission submission_id (index + 1) rest
    pure (call :: calls)

/-- Lines 250-278: `for index, code_input := range submission.Stdin`; the
`RunCode` calls started, in index order. -/
def fanOut (lib : GoLib) (submission : Submission) (submission_id : String) :
    Except Halt (List RunCodeCall) :=
  fanOutFrom lib submission submission_id 0 submission.Stdin

/-! ## Sandbox drivers and case runner -/

/-- The container a runtime call addresses: `resp` of `executeCode`,
`compilingResp` and `executeResp` of `compileCode`. -/
inductive Container where
  | resp
  | compilingResp
  | executeResp
  deriving DecidableEq, Repr

/-- The calls a driver issues, in program order. -/
inductive Action where
  | VolumeCreate (name : String)
  | ContainerCreate (c : Container) (image : String) (cmd : List String)
      (openStdin : Bool) (nprocSoft nprocHard : Int) (memory : Int) (bind : Option String)
  | CopyToContainer (c : Container) (filename : String) (data : String)
  | ContainerStart (c : Container)
  | ContainerAttach (c : Container)
  | ConnWrite (c : Container) (payload : String)
  | ContainerWait (c : Container) (seconds : Int)
  | ContainerStop (c : Container)
  | ContainerRemove (c : Container)
  | ContainerLogs (c : Container)
  | VolumeRemove (name : String)
  | Put_Execution_Result_To_Channel (execution_result : Execution_Result)
  deriving DecidableEq, Repr

/-- The case of a driver's `select` that the Go runtime picked. -/
inductive WaitEvent where
  /-- A value received from the error channel of `ContainerWait`: `nil`
  (`none`) or an error with its message. -/
  | errCh (err : Option String)
  /-- The phase deadline context is done. -/
  | deadline
  /-- A status received from the status channel of `ContainerWait`. -/
  | statusCh (StatusCode : Int)
  /-- The submission-wide `threading_ctx` is done. -/
  | cancelled
  deriving DecidableEq, Repr

/-- The result of `ContainerLogs` followed by `stdcopy.StdCopy`: the error
message of `ContainerLogs`, or the two demultiplexed buffers. -/
abbrev LogsResult := Except String (String × String)

/-- What the container runtime does for one case: the event picked at each
await point and the logs read there.  `executeCode` reads the `execute` fields. -/
structure Sandbox where
  compileEvent : WaitEvent
  compileLogs : LogsResult
  executeEvent : WaitEvent
  executeLogs : LogsResult

/-- The registry `languages_details[language_name][key]`; a missing key reads
as the empty string, as in a Go map of strings. -/
abbrev Registry := List (String × List (String × String))

/-- The expression `languages_details[language][key]`. -/
def Registry.get (languages_details : Registry) (language key : String) : String :=
  match languages_details.lookup language with
  | none => ""
  | some entry => (entry.lookup key).getD ""

/-- The outcomes a sequence of calls publishes, in order. -/
def published (actions : List Action) : List Execution_Result :=
  actions.filterMap fun a =>
    match a with
    | .Put_Execution_Result_To_Channel r => some r
    | _ => none

/-- A Go `int64` product, wrapped to 64 bits. -/
def wrap64 (x : Int) : Int := (x + 2 ^ 63) % 2 ^ 64 - 2 ^ 63

/-- The outcome literal `Execution_Result{submission_index, "", stderr}` sent
through `Put_Execution_Result_To_Channel`. -/
def putSentinel (submission_index : Int) (stderr : String) : Action :=
  .Put_Execution_Result_To_Channel ⟨submission_index, "", stderr⟩

/-- Lines 487-548: the `select` of `executeCode`. -/
def executeSelect (submission_index : Int) (ev : WaitEvent) (logs : LogsResult) :
    List Action :=
  match ev with
  | .errCh err =>
    (if err.isSome then [putSentinel submission_index "Sandbox error, try to run again"]
      else [])
      ++ [.ContainerRemove .resp]
  | .deadline =>
    [.ContainerStop .resp, putSentinel submission_index "Time Limit Exceeded",
      .ContainerRemove .resp]
  | .statusCh StatusCode =>
    (if StatusCode = 137 then [putSentinel submission_index "Memory Limit Exceeded"]
      else [])
      ++ [.ContainerLogs .resp]
      ++ (match logs with
          | .error e => [putSentinel submission_index ("Something wrong " ++ e)]
          | .ok (stdoutput, stderror) =>
            [.ContainerRemove .resp,
              .Put_Execution_Result_To_Channel ⟨submission_index, stdoutput, stderror⟩])
  | .cancelled => [.ContainerRemove .resp]

/-- The interpreter driver `executeCode` (lines 423-549). -/
def executeCode (languages_details : Registry) (code input language : String)
    (time_limit mem_limit_mb : Int) (submission_id : String) (submission_index : Int)
    (ev : WaitEvent) (logs : LogsResult) : List Action :=
  let _ := submission_id
  [ .ContainerCreate .resp (languages_details.get language "image")
      ((languages_details.get language "execute").splitOn " ") true 1024 2048
      (wrap64 (mem_limit_mb * 1024 * 1024)) none,
    .CopyToContainer .resp ("code" ++ languages_details.get language "extension") code,
    .ContainerStart .resp,
    .ContainerAttach .resp,
    .ConnWrite .resp (input ++ "\n"),
    .ContainerWait .resp time_limit ]
    ++ executeSelect submission_index ev logs

/-- Lines 553: `fmt.Sprintf("submission-%s-%d", submission_id, submission_index)`. -/
def volumeName (submission_id : String) (submission_index : Int) : String :=
  "submission-" ++ submission_id ++ "-" ++ toString submission_index

/-- Lines 735-804: the second `select` of `compileCode`, on the execute
container. -/
def compileCodeExecuteSelect (submission_id : String) (submission_index : Int)
    (ev : WaitEvent) (logs : LogsResult) : List Action :=
  match ev with
  | .errCh err =>
    if err.isSome then
      [.ContainerRemove .executeResp,
        putSentinel submission_index "Sandbox error, try to run again"]
    else []
  | .deadline =>
    [.ContainerRemove .executeResp, putSentinel submission_index "Run Time Limit Exceeded"]
  | .statusCh StatusCode =>
    (if StatusCode = 137 then
        [.ContainerRemove .executeResp,
          putSentinel submission_index "Run Time Memory Limit Exceeded"]
      else [])
      ++ [.ContainerLogs .executeResp]
      ++ (match logs with
          | .error e => [putSentinel submission_index (" " ++ e)]
          | .ok (stdoutput, stderror) =>
            [.ContainerRemove .executeResp, .ContainerRemove .compilingResp,
              .VolumeRemove (volumeName submission_id submission_index),
              .Put_Execution_Result_To_Channel ⟨submission_index, stdoutput, stderror⟩])
  | .cancelled => []

/-- Lines 686-805: the execute phase of `compileCode`, reached when the first
`select` does not return. -/
def compileCodeExecute (languages_details : Registry) (input language : String)
    (time_limit mem_limit_mb : Int) (submission_id : String) (submission_index : Int)
    (ev : WaitEvent) (logs : LogsResult) : List Action :=
  [ .ContainerCreate .executeResp (languages_details.get language "image")
      ((languages_details.get language "execute").splitOn " ") true 100 1024
      (wrap64 (mem_limit_mb * 1024 * 1024))
      (some (volumeName submission_id submission_index ++ ":/app")),
    .ContainerStart .executeResp,
    .ContainerAttach .executeResp,
    .ConnWrite .executeResp (input ++ "\n"),
    .ContainerWait .executeResp time_limit ]
    ++ compileCodeExecuteSelect submission_id submission_index ev logs

/-- Lines 605-685: the first `select` of `compileCode`, on the compile
container.  The second component tells whether control falls out of the
`select` into the execute phase (`true`) or the function returns (`false`). -/
def compileSelect (submission_index : Int) (ev : WaitEvent) (logs : LogsResult) :
    List Action × Bool :=
  match ev with
  | .errCh err =>
    (if err.isSome then
        [.ContainerRemove .compilingResp, putSentinel submission_index "Time Limit Exceeded"]
      else [],
      true)
  | .deadline =>
    ([.ContainerRemove .compilingResp,
        putSentinel submission_index "Compile Time Limit Exceeded"],
      true)
  | .statusCh StatusCode =>
    let on137 :=
      if StatusCode = 137 then
        [.ContainerRemove .compilingResp,
          putSentinel submission_index "Compile Memory Limit Exceeded"]
      else []
    let on127 :=
      if StatusCode = 127 then
        [.ContainerRemove .compilingResp,
          putSentinel submission_index "Compile Error, Invalid Command"]
      else []
    if StatusCode = 1 then
      (on137 ++ on127 ++ [.ContainerLogs .compilingResp]
        ++ (match logs with
            | .error e =>
              [putSentinel submission_index ("Error in compiling container " ++ e)]
            | .ok (stdoutput, stderror) =>
              [.ContainerRemove .compilingResp,
                .Put_Execution_Result_To_Channel ⟨submission_index, stdoutput, stderror⟩]),
        false)
    else
      (on137 ++ on127, true)
  | .cancelled => ([], false)

/-- The compiler driver `compileCode` (lines 551-805). -/
def compileCode (languages_details : Registry) (code input language : String)
    (time_limit mem_limit_mb : Int) (submission_id : String) (submission_index : Int)
    (sandbox : Sandbox) : List Action :=
  let compiling := compileSelect submission_index sandbox.compileEvent sandbox.compileLogs
  [ .VolumeCreate (volumeName submission_id submission_index),
    .ContainerCreate .compilingResp (languages_details.get language "image")
      ((languages_details.get language "compile").splitOn " ") false 1024 2048
      (wrap64 (mem_limit_mb * 1024 * 1024))
      (some (volumeName submission_id submission_index ++ ":/app")),
    .CopyToContainer .compilingResp ("code" ++ languages_details.get language "extension")
      code,
    .ContainerStart .compilingResp,
    .ContainerWait .compilingResp 5 ]
    ++ compiling.1
    ++ (if compiling.2 then
          compileCodeExecute languages_details input language time_limit mem_limit_mb
            submission_id submission_index sandbox.executeEvent sandbox.executeLogs
        else [])

/-- The case runner `RunCode` (lines 807-819). -/
def RunCode (languages_details : Registry) (code input language : String)
    (time_limit mem_limit_mb : Int) (submission_index : Int) (submission_id : String)
    (sandbox : Sandbox) : List Action :=
  if languages_details.get language "type" = "interpreter" then
    executeCode languages_details code input language time_limit mem_limit_mb submission_id
      submission_index sandbox.executeEvent sandbox.executeLogs
  else if languages_details.get language "type" = "compiler" then
    compileCode languages_details code input language time_limit mem_limit_mb submission_id
      submission_index sandbox
  else
    [putSentinel submission_index "Unsupported language"]

/-! ## `Message_Handler`, lines 296-320: save, judge, status update -/

/-- The zero value `Submission{}`, which `Parse_Submission_From_Redis` returns
when the cache read or the JSON parse fails. -/
def zeroSubmission : Submission := ⟨"", "", "", [], [], [], [], [], [], ""⟩

/-- The judge notifier `Judge_Submission` (lines 852-870): the returned status
code and error.  `response` is the result of `http.DefaultClient.Do`: a
transport error, or the status code of the response.  `http.NewRequest` is
called with a constant method and URL and does not fail. -/
def Judge_Submission (submission_id : String) (response : Except String Int) :
    Int × Option String :=
  if submission_id = "" then
    (-1, some "submission_id is empty")
  else
    match response with
    | .error err => (-1, some err)
    | .ok StatusCode => (StatusCode, none)

/-- Lines 296-318: the records handed to `Save_Submission_To_Redis`, in order.
`submission_after_judge_parsed` is the record re-read and parsed after the
judge call (`zeroSubmission` when that fails); errors of the saves are only
logged. -/
def saveAndJudge (submission : Submission) (response : Except String Int)
    (submission_after_judge_parsed : Submission) : List Submission :=
  let statusCode := (Judge_Submission submission.SubmissionID response).1
  [submission] ++
    (if statusCode = 200 then
        [{ submission_after_judge_parsed with Status := "done execution" }]
      else [])

/-- What one run of `Message_Handler` does: the `RunCode` calls it starts and
the records it saves, in order. -/
structure Handled where
  calls : List RunCodeCall
  saves : List Submission
  deriving DecidableEq, Repr

/-- The scheduler `Message_Handler` (lines 229-322), from the identifier in the
delivery, the record loaded and parsed from the cache, the outcomes the channel
delivers, the judge response and the record re-read after the judge call. -/
def Message_Handler (lib : GoLib) (submission_id : String) (submission : Submission)
    (arrivals : List Execution_Result) (response : Except String Int)
    (submission_after_judge_parsed : Submission) : Except Halt Handled := do
  let calls ← fanOut lib submission submission_id
  let submission ← collectAndAppend lib submission arrivals
  pure ⟨calls, saveAndJudge submission response submission_after_judge_parsed⟩

/-! ## `Message_Handler`, lines 249-277: the guard channel

The fan-out loop and the goroutines it starts, as an interleaving of their
steps on one submission. -/

/-- The state of the token pool of one submission. -/
structure Sched where
  /-- The loop variable `index` of the next iteration. -/
  index : Nat
  /-- The loop has executed `guard <- struct{}{}` (line 251) of the current
  iteration and not yet its `go` statement (line 274). -/
  acquired : Bool
  /-- The number of tokens in the channel `guard`, `len(guard)`. -/
  guard : Nat
  /-- The indices whose goroutine is inside `RunCode` (line 275). -/
  running : List Nat
  /-- The indices whose `RunCode` has returned and whose goroutine has not yet
  executed `<-guard` (line 276). -/
  returned : List Nat
  deriving DecidableEq, Repr

/-- The steps of the loop and of its goroutines. -/
inductive SchedStep where
  /-- Line 251: `guard <- struct{}{}`; blocks while the channel holds 2 tokens. -/
  | acquire
  /-- Line 274: the `go` statement; the new goroutine enters `RunCode`. -/
  | go
  /-- Line 275: `RunCode` of the goroutine of `index` returns. -/
  | runCodeReturns (index : Nat)
  /-- Line 276: the goroutine of `index` executes `<-guard`. -/
  | release (index : Nat)
  deriving DecidableEq, Repr

/-- The state before the loop: `guard := make(chan struct{}, 2)`. -/
def Sched.init : Sched := ⟨0, false, 0, [], []⟩

/-- One step on a submission with `n` cases; `none` when the step is not
enabled in the state. -/
def Sched.step (n : Nat) (s : Sched) : SchedStep → Option Sched
  | .acquire =>
    if s.index < n ∧ s.acquired = false ∧ s.guard < 2 then
      some { s with acquired := true, guard := s.guard + 1 }
    else none
  | .go =>
    if s.acquired = true then
      some { s with acquired := false, index := s.index + 1, running := s.index :: s.running }
    else none
  | .runCodeReturns i =>
    if i ∈ s.running then
      some { s with running := s.running.erase i, returned := i :: s.returned }
    else none
  | .release i =>
    if i ∈ s.returned ∧ 0 < s.guard then
      some { s with returned := s.returned.erase i, guard := s.guard - 1 }
    else none

/-- A sequence of steps from a state. -/
def Sched.run (n : Nat) (s : Sched) : List SchedStep → Option Sched
  | [] => some s
  | e :: es =>
    match Sched.step n s e with
    | some t => Sched.run n t es
    | none => none

/-- The token accounting of the guard channel: every token in the channel
belongs to the iteration that has acquired and not yet started its goroutine,
or to a goroutine that has not yet executed `<-guard`; and the channel holds at
most 2. -/
def Sched.Inv (s : Sched) : Prop :=
  s.guard = (if s.acquired then 1 else 0) + s.running.length + s.returned.length ∧
    s.guard ≤ 2

/-! ## `injectUsernamePasswordToRabbitMQURL` -/

/-- The white space of `unicode.IsSpace`, which `strings.TrimSpace` removes. -/
def isSpace (c : Char) : Bool :=
  c = '\t' || c = '\n' || c.toNat = 0x0B || c.toNat = 0x0C || c = '\r' || c = ' '
    || c.toNat = 0x85 || c.toNat = 0xA0 || c.toNat = 0x1680
    || (0x2000 ≤ c.toNat && c.toNat ≤ 0x200A)
    || c.toNat = 0x2028 || c.toNat = 0x2029 || c.toNat = 0x202F || c.toNat = 0x205F
    || c.toNat = 0x3000

/-- The library routine `strings.TrimSpace`. -/
def TrimSpace (s : String) : String :=
  String.mk (((s.data.dropWhile isSpace).reverse.dropWhile isSpace).reverse)

/-- The first instance of `old` replaced by `new`, on lists of symbols; an empty
`old` matches at the beginning. -/
def replaceFirstChars (old new : List Char) : List Char → List Char
  | [] => if old.isEmpty then new else []
  | c :: cs =>
    if old.isPrefixOf (c :: cs) then new ++ (c :: cs).drop old.length
    else c :: replaceFirstChars old new cs

/-- The library call `strings.Replace(s, old, new, 1)`. -/
def stringsReplaceFirst (s old new : String) : String :=
  String.mk (replaceFirstChars old.data new.data s.data)

/-- The function `injectUsernamePasswordToRabbitMQURL` (lines 174-179); the
format `"amqps://%s:%s@"` is a concatenation. -/
def injectUsernamePasswordToRabbitMQURL (rabbitMQURL rabbitMQUsername rabbitMQPassword : String) :
    String :=
  let username := TrimSpace rabbitMQUsername
  let password := TrimSpace rabbitMQPassword
  stringsReplaceFirst rabbitMQURL "amqps://" ("amqps://" ++ username ++ ":" ++ password ++ "@")

/-! ## A concrete instance of the library routines

Used to evaluate the model on examples (ASCII text): standard base64 with
padding, and leftmost non-overlapping replacement. -/

/-- The alphabet of `base64.StdEncoding`. -/
def base64Alphabet : List Char :=
  "ABCDEFGHIJKLMNOPQRSTUVWXYZabcdefghijklmnopqrstuvwxyz0123456789+/".data

/-- The symbol of a 6-bit value. -/
def base64Symbol (v : Nat) : Char := base64Alphabet.getD (v % 64) 'A'

/-- Standard base64 of a list of bytes, three bytes to four symbols, padded. -/
def base64Encode : List Nat → List Char
  | a :: b :: c :: rest =>
    base64Symbol (a / 4) :: base64Symbol (a % 4 * 16 + b / 16)
      :: base64Symbol (b % 16 * 4 + c / 64) :: base64Symbol (c % 64) :: base64Encode rest
  | [a, b] =>
    [base64Symbol (a / 4), base64Symbol (a % 4 * 16 + b / 16), base64Symbol (b % 16 * 4), '=']
  | [a] => [base64Symbol (a / 4), base64Symbol (a % 4 * 16), '=', '=']
  | [] => []

/-- The 6-bit value of a symbol, if it is in the alphabet. -/
def base64Value (c : Char) : Option Nat :=
  let i := base64Alphabet.indexOf c
  if i < 64 then some i else none

/-- Standard base64 decoding, four symbols to three bytes; decoding stops at
the first group that is not well formed. -/
def base64Decode : List Char → List Nat
  | [a, b, '=', '='] =>
    match base64Value a, base64Value b with
    | some x, some y => [x * 4 + y / 16]
    | _, _ => []
  | [a, b, c, '='] =>
    match base64Value a, base64Value b, base64Value c with
    | some x, some y, some z => [x * 4 + y / 16, y % 16 * 16 + z / 4]
    | _, _, _ => []
  | a :: b :: c :: d :: rest =>
    match base64Value a, base64Value b, base64Value c, base64Value d with
    | some x, some y, some z, some w =>
      (x * 4 + y / 16) :: (y % 16 * 16 + z / 4) :: (z % 4 * 64 + w) :: base64Decode rest
    | _, _, _, _ => []
  | _ => []

/-- Leftmost non-overlapping replacement of `old` by `new`, with a bound on the
number of steps; an empty `old` matches before every symbol and at the end. -/
def replaceChars (old new : List Char) : Nat → List Char → List Char
  | 0, s => s
  | fuel + 1, s =>
    match old, s with
    | [], [] => new
    | [], c :: cs => new ++ c :: replaceChars old new fuel cs
    | _ :: _, [] => []
    | o :: os, c :: cs =>
      if (o :: os).isPrefixOf (c :: cs) then
        new ++ replaceChars old new fuel ((c :: cs).drop (o :: os).length)
      else
        c :: replaceChars old new fuel cs

/-- The concrete library instance. -/
def stdLib : GoLib where
  EncodeToString s := String.mk (base64Encode (s.data.map Char.toNat))
  DecodeString s := String.mk ((base64Decode s.data).map Char.ofNat)
  ReplaceAll s old new := String.mk (replaceChars old.data new.data (s.length + 1) s.data)

/-- An example record: two cases over the code `print('X')`, the first with the
replacement X to Y, the second with X to Z. -/
def exampleSubmission : Submission where
  SubmissionID := "s"
  Language := "py"
  Code := "cHJpbnQoJ1gnKQ=="
  Stdin := ["", ""]
  Replace := [[⟨"WA==", "WQ=="⟩], [⟨"WA==", "Wg=="⟩]]
  TimeLimit := [1, 1]
  MemoryLimit := [8, 8]
  Stdout := []
  Stderr := []
  Status := ""

/-! # Theorems -/

/-! ## Lemmas on the re-order buffer -/

theorem storeResult_ok {reordered : List Execution_Result} {result : Execution_Result}
    (h0 : 0 ≤ result.Submission_Index)
    (h1 : result.Submission_Index.toNat < reordered.length) :
    storeResult reordered result = .ok (reordered.set result.Submission_Index.toNat result) := by
  simp [storeResult, h0, h1]

theorem storeResult_length {reordered out : List Execution_Result} {result : Execution_Result}
    (h : storeResult reordered result = .ok out) : out.length = reordered.length := by
  unfold storeResult at h
  split at h
  · cases h; simp
  · cases h

theorem foldlM_cons_ok {rs : List Execution_Result} {buf b : List Execution_Result}
    {r : Execution_Result} (h : storeResult buf r = .ok b) :
    (r :: rs).foldlM storeResult buf = rs.foldlM storeResult b := by
  simp [List.foldlM_cons, h, bind, Except.bind]

theorem foldlM_cons_error {rs : List Execution_Result} {buf : List Execution_Result}
    {r : Execution_Result} {e : Halt} (h : storeResult buf r = .error e) :
    (r :: rs).foldlM storeResult buf = .error e := by
  simp [List.foldlM_cons, h, bind, Except.bind]

/-- Whatever the indices, a completed re-order leaves the buffer length alone. -/
theorem foldlM_store_length (rs : List Execution_Result) :
    ∀ buf out : List Execution_Result,
      rs.foldlM storeResult buf = .ok out → out.length = buf.length := by
  induction rs with
  | nil => intro buf out h; simp [pure, Except.pure] at h; rw [h]
  | cons r rs ih =>
    intro buf out h
    cases hs : storeResult buf r with
    | error e => rw [foldlM_cons_error hs] at h; cases h
    | ok b =>
      rw [foldlM_cons_ok hs] at h
      rw [ih b out h, storeResult_length hs]

/-- With every index inside the buffer the re-order completes; a slot no
outcome addresses keeps its content, and with pairwise distinct indices every
outcome sits in the slot of its index. -/
theorem foldlM_store_spec (rs : List Execution_Result) :
    ∀ buf : List Execution_Result,
      (∀ r ∈ rs, 0 ≤ r.Submission_Index ∧ r.Submission_Index.toNat < buf.length) →
      ∃ out, rs.foldlM storeResult buf = .ok out ∧ out.length = buf.length ∧
        (∀ p, (∀ r ∈ rs, r.Submission_Index.toNat ≠ p) → out[p]? = buf[p]?) ∧
        ((rs.map (·.Submission_Index)).Nodup → ∀ r ∈ rs, out[r.Submission_Index.toNat]? = some r) := by
  induction rs with
  | nil =>
    intro buf _
    exact ⟨buf, rfl, rfl, fun _ _ => rfl, fun _ r hr => by cases hr⟩
  | cons r rs ih =>
    intro buf h
    have hr := h r (List.mem_cons_self _ _)
    have hs := storeResult_ok hr.1 hr.2
    obtain ⟨out, hout, hlen, hkeep, hnd⟩ := ih (buf.set r.Submission_Index.toNat r) (by
      intro r' hr'
      have := h r' (List.mem_cons_of_mem _ hr')
      simpa using this)
    refine ⟨out, by rw [foldlM_cons_ok hs]; exact hout, by simpa using hlen, ?_, ?_⟩
    · intro p hp
      rw [hkeep p (fun r' hr' => hp r' (List.mem_cons_of_mem _ hr'))]
      have : r.Submission_Index.toNat ≠ p := hp r (List.mem_cons_self _ _)
      simp [List.getElem?_set, this]
    · intro hnodup r' hr'
      rw [List.map_cons, List.nodup_cons] at hnodup
      rcases List.mem_cons.1 hr' with rfl | hin
      · rw [hkeep]
        · simp [List.getElem?_set, hr.2]
        · intro q hq heq
          apply hnodup.1
          have hq0 := (h q (List.mem_cons_of_mem _ hq)).1
          have : q.Submission_Index = r'.Submission_Index := by
            have h1 := Int.toNat_of_nonneg hq0
            have h2 := Int.toNat_of_nonneg hr.1
            omega
          rw [← this]
          exact List.mem_map_of_mem _ hq
      · exact hnd hnodup.2 r' hin

theorem appendResults_Stdout (lib : GoLib) (reordered : List Execution_Result) :
    ∀ submission : Submission,
      (appendResults lib submission reordered).Stdout
        = submission.Stdout ++ reordered.map (fun r => lib.EncodeToString r.Stdout) := by
  induction reordered with
  | nil => intro s; simp [appendResults]
  | cons r rs ih =>
    intro s
    have := ih { s with
      Stdout := s.Stdout ++ [lib.EncodeToString r.Stdout]
      Stderr := s.Stderr ++ [lib.EncodeToString r.Stderr] }
    simp only [appendResults, List.foldl_cons] at this ⊢
    rw [this]; simp

theorem appendResults_Stderr (lib : GoLib) (reordered : List Execution_Result) :
    ∀ submission : Submission,
      (appendResults lib submission reordered).Stderr
        = submission.Stderr ++ reordered.map (fun r => lib.EncodeToString r.Stderr) := by
  induction reordered with
  | nil => intro s; simp [appendResults]
  | cons r rs ih =>
    intro s
    have := ih { s with
      Stdout := s.Stdout ++ [lib.EncodeToString r.Stdout]
      Stderr := s.Stderr ++ [lib.EncodeToString r.Stderr] }
    simp only [appendResults, List.foldl_cons] at this ⊢
    rw [this]; simp

theorem appendResults_Stdin (lib : GoLib) (reordered : List Execution_Result) :
    ∀ submission : Submission,
      (appendResults lib submission reordered).Stdin = submission.Stdin := by
  induction reordered with
  | nil => intro s; simp [appendResults]
  | cons r rs ih =>
    intro s
    have := ih { s with
      Stdout := s.Stdout ++ [lib.EncodeToString r.Stdout]
      Stderr := s.Stderr ++ [lib.EncodeToString r.Stderr] }
    simp only [appendResults, List.foldl_cons] at this ⊢
    rw [this]

theorem collectAndAppend_ok {lib : GoLib} {submission : Submission}
    {arrivals reordered : List Execution_Result}
    (hn : submission.Stdin.length ≤ arrivals.length)
    (hr : reorderResults (arrivals.take submission.Stdin.length) = .ok reordered) :
    collectAndAppend lib submission arrivals = .ok (appendResults lib submission reordered) := by
  simp [collectAndAppend, collectOutcomes, hn, bind, Except.bind, hr, pure, Except.pure]

theorem collectAndAppend_inv {lib : GoLib} {submission saved : Submission}
    {arrivals : List Execution_Result}
    (h : collectAndAppend lib submission arrivals = .ok saved) :
    submission.Stdin.length ≤ arrivals.length ∧
      ∃ reordered, reorderResults (arrivals.take submission.Stdin.length) = .ok reordered ∧
        saved = appendResults lib submission reordered := by
  by_cases hn : submission.Stdin.length ≤ arrivals.length
  · refine ⟨hn, ?_⟩
    cases hr : reorderResults (arrivals.take submission.Stdin.length) with
    | error e =>
      simp [collectAndAppend, collectOutcomes, hn, bind, Except.bind, hr] at h
    | ok reordered =>
      rw [collectAndAppend_ok hn hr] at h
      exact ⟨reordered, rfl, by cases h; rfl⟩
  · simp [collectAndAppend, collectOutcomes, hn, bind, Except.bind] at h

theorem reorderResults_length {rs out : List Execution_Result}
    (h : reorderResults rs = .ok out) : out.length = rs.length := by
  have := foldlM_store_length rs _ out h
  simpa using this

/-- C1. In `Message_Handler`, when the N collected outcomes carry each index
0..N-1 exactly once, in whatever completion order, the step completes and the
j-th entry appended to the record's stdout (resp. stderr) is the base64 text of
the stdout (resp. stderr) of the outcome whose `Submission_Index` is j, for
every j < N. -/
theorem reorder_restores_case_order (lib : GoLib) (submission : Submission)
    (arrivals : List Execution_Result)
    (hperm : ((arrivals.take submission.Stdin.length).map (·.Submission_Index)).Perm
      ((List.range submission.Stdin.length).map Int.ofNat)) :
    ∃ saved, collectAndAppend lib submission arrivals = .ok saved ∧
      ∀ j, j < submission.Stdin.length →
        ∃ r ∈ arrivals.take submission.Stdin.length,
          r.Submission_Index = (j : Int) ∧
          saved.Stdout[submission.Stdout.length + j]? = some (lib.EncodeToString r.Stdout) ∧
          saved.Stderr[submission.Stderr.length + j]? = some (lib.EncodeToString r.Stderr) := by
  set n := submission.Stdin.length with hn
  set rs := arrivals.take n with hrs
  have hlen : rs.length = n := by
    have := hperm.length_eq
    simpa using this
  have hle : n ≤ arrivals.length := by
    have : rs.length ≤ arrivals.length := by rw [hrs, List.length_take]; exact Nat.min_le_right _ _
    omega
  have hrange : ∀ r ∈ rs, 0 ≤ r.Submission_Index ∧
      r.Submission_Index.toNat < (List.replicate rs.length zeroResult).length := by
    intro r hr
    have hm : r.Submission_Index ∈ (List.range n).map Int.ofNat :=
      hperm.subset (List.mem_map_of_mem _ hr)
    obtain ⟨k, hk, hkr⟩ := List.mem_map.1 hm
    have hk' := List.mem_range.1 hk
    rw [← hkr]
    simp [hlen, hk']
  have hnodup : (rs.map (·.Submission_Index)).Nodup := by
    rw [hperm.nodup_iff]
    exact (List.nodup_range n).map Int.ofNat_injective
  obtain ⟨out, hout, holen, -, hslot⟩ := foldlM_store_spec rs _ hrange
  refine ⟨appendResults lib submission out, collectAndAppend_ok hle hout, ?_⟩
  intro j hj
  have hm : (j : Int) ∈ rs.map (·.Submission_Index) :=
    hperm.symm.subset (List.mem_map.2 ⟨j, List.mem_range.2 hj, rfl⟩)
  obtain ⟨r, hr, hrj⟩ := List.mem_map.1 hm
  have hrj' : r.Submission_Index = (j : Int) := hrj
  have hget := hslot hnodup r hr
  rw [hrj'] at hget
  simp only [Int.toNat_ofNat] at hget
  refine ⟨r, hr, hrj', ?_, ?_⟩
  · rw [appendResults_Stdout, List.getElem?_append_right (Nat.le_add_right _ _)]
    simp [hget]
  · rw [appendResults_Stderr, List.getElem?_append_right (Nat.le_add_right _ _)]
    simp [hget]

/-- C1, evaluated on two cases completing in the order 1, 0. -/
theorem reorder_restores_case_order_witness :
    ∃ saved,
      collectAndAppend stdLib ⟨"s", "py", "", ["", ""], [[], []], [1, 1], [8, 8], [], [], ""⟩
        [⟨1, "fast", ""⟩, ⟨0, "slow", "warn"⟩] = .ok saved ∧
      ∀ j : Nat, j < 2 →
        ∃ r ∈ List.take 2 [(⟨1, "fast", ""⟩ : Execution_Result), ⟨0, "slow", "warn"⟩],
          r.Submission_Index = (j : Int) ∧
          saved.Stdout[0 + j]? = some (stdLib.EncodeToString r.Stdout) ∧
          saved.Stderr[0 + j]? = some (stdLib.EncodeToString r.Stderr) :=
  reorder_restores_case_order stdLib
    ⟨"s", "py", "", ["", ""], [[], []], [1, 1], [8, 8], [], [], ""⟩
    [⟨1, "fast", ""⟩, ⟨0, "slow", "warn"⟩] (by decide)

/-- C2. For a record loaded with empty stdout and stderr, whenever
`Message_Handler` completes the collect-and-append step the written record has
len(stdout) = len(stderr) = len(stdin), whatever indices the collected outcomes
carry; and the step does complete as soon as N outcomes arrive and their
indices lie in [0, N), repeated or not. -/
theorem output_lengths_match_stdin (lib : GoLib) (submission : Submission)
    (arrivals : List Execution_Result)
    (hout : submission.Stdout = []) (herr : submission.Stderr = []) :
    (∀ saved, collectAndAppend lib submission arrivals = .ok saved →
        saved.Stdin = submission.Stdin ∧
        saved.Stdout.length = saved.Stdin.length ∧
        saved.Stderr.length = saved.Stdin.length) ∧
    (submission.Stdin.length ≤ arrivals.length →
      (∀ r ∈ arrivals.take submission.Stdin.length,
        0 ≤ r.Submission_Index ∧ r.Submission_Index < submission.Stdin.length) →
      ∃ saved, collectAndAppend lib submission arrivals = .ok saved) := by
  constructor
  · intro saved h
    obtain ⟨hn, reordered, hre, rfl⟩ := collectAndAppend_inv h
    have hl := reorderResults_length hre
    rw [List.length_take, Nat.min_eq_left hn] at hl
    rw [appendResults_Stdin, appendResults_Stdout, appendResults_Stderr, hout, herr]
    simp [hl]
  · intro hn hidx
    have hl : (arrivals.take submission.Stdin.length).length = submission.Stdin.length := by
      rw [List.length_take, Nat.min_eq_left hn]
    obtain ⟨out, hre, -⟩ := foldlM_store_spec (arrivals.take submission.Stdin.length)
      (List.replicate (arrivals.take submission.Stdin.length).length zeroResult) (by
        intro r hr
        have := hidx r hr
        refine ⟨this.1, ?_⟩
        rw [List.length_replicate, hl]
        omega)
    exact ⟨_, collectAndAppend_ok hn hre⟩

/-- C2, evaluated on two cases whose collected outcomes both carry index 0. -/
theorem output_lengths_match_stdin_witness :
    (∀ saved,
        collectAndAppend stdLib ⟨"s", "py", "", ["", ""], [[], []], [1, 1], [8, 8], [], [], ""⟩
          [⟨0, "", "Memory Limit Exceeded"⟩, ⟨0, "out", ""⟩] = .ok saved →
        saved.Stdin = ["", ""] ∧
        saved.Stdout.length = saved.Stdin.length ∧
        saved.Stderr.length = saved.Stdin.length) ∧
    ((2 : Nat) ≤ 2 →
      (∀ r ∈ List.take 2 [(⟨0, "", "Memory Limit Exceeded"⟩ : Execution_Result), ⟨0, "out", ""⟩],
        0 ≤ r.Submission_Index ∧ r.Submission_Index < (2 : Nat)) →
      ∃ saved,
        collectAndAppend stdLib ⟨"s", "py", "", ["", ""], [[], []], [1, 1], [8, 8], [], [], ""⟩
          [⟨0, "", "Memory Limit Exceeded"⟩, ⟨0, "out", ""⟩] = .ok saved) :=
  output_lengths_match_stdin stdLib
    ⟨"s", "py", "", ["", ""], [[], []], [1, 1], [8, 8], [], [], ""⟩
    [⟨0, "", "Memory Limit Exceeded"⟩, ⟨0, "out", ""⟩] rfl rfl

/-- C3 as stated fails: one case, one outcome; the step run on the record it
wrote yields two stdout entries where the single run wrote one. -/
theorem rerun_is_idempotent_counterexample :
    collectAndAppend stdLib ⟨"s", "py", "", [""], [[]], [1], [8], [], [], ""⟩
        [⟨0, "out", ""⟩]
      = .ok ⟨"s", "py", "", [""], [[]], [1], [8], ["b3V0"], [""], ""⟩ ∧
    collectAndAppend stdLib ⟨"s", "py", "", [""], [[]], [1], [8], ["b3V0"], [""], ""⟩
        [⟨0, "out", ""⟩]
      = .ok ⟨"s", "py", "", [""], [[]], [1], [8], ["b3V0", "b3V0"], ["", ""], ""⟩ ∧
    ¬ (∀ (lib : GoLib) (submission saved : Submission) (arrivals : List Execution_Result),
        collectAndAppend lib submission arrivals = .ok saved →
        ∃ again, collectAndAppend lib saved arrivals = .ok again ∧
          again.Stdout = saved.Stdout ∧ again.Stderr = saved.Stderr) := by
  refine ⟨rfl, rfl, ?_⟩
  intro h
  obtain ⟨again, h1, h2, -⟩ := h stdLib ⟨"s", "py", "", [""], [[]], [1], [8], [], [], ""⟩
    ⟨"s", "py", "", [""], [[]], [1], [8], ["b3V0"], [""], ""⟩ [⟨0, "out", ""⟩] rfl
  have h3 : collectAndAppend stdLib ⟨"s", "py", "", [""], [[]], [1], [8], ["b3V0"], [""], ""⟩
        [⟨0, "out", ""⟩]
      = .ok ⟨"s", "py", "", [""], [[]], [1], [8], ["b3V0", "b3V0"], ["", ""], ""⟩ := rfl
  rw [h3] at h1
  cases h1
  exact absurd h2 (by decide)

/-- C3, amended. The collect-and-write step appends: when a run on a loaded
record completes, it has added N entries to stdout and N to stderr, and the
same step run on the record it wrote completes too and adds the same N entries
once more after them. -/
theorem rerun_appends_again (lib : GoLib) (submission saved : Submission)
    (arrivals : List Execution_Result)
    (h : collectAndAppend lib submission arrivals = .ok saved) :
    ∃ outs errs : List String,
      outs.length = submission.Stdin.length ∧ errs.length = submission.Stdin.length ∧
      saved.Stdout = submission.Stdout ++ outs ∧
      saved.Stderr = submission.Stderr ++ errs ∧
      ∃ again, collectAndAppend lib saved arrivals = .ok again ∧
        again.Stdout = submission.Stdout ++ outs ++ outs ∧
        again.Stderr = submission.Stderr ++ errs ++ errs := by
  obtain ⟨hn, reordered, hre, rfl⟩ := collectAndAppend_inv h
  have hl := reorderResults_length hre
  rw [List.length_take, Nat.min_eq_left hn] at hl
  have hin : (appendResults lib submission reordered).Stdin = submission.Stdin :=
    appendResults_Stdin lib reordered submission
  refine ⟨reordered.map (fun r => lib.EncodeToString r.Stdout),
    reordered.map (fun r => lib.EncodeToString r.Stderr), by simp [hl], by simp [hl],
    appendResults_Stdout lib reordered submission,
    appendResults_Stderr lib reordered submission,
    appendResults lib (appendResults lib submission reordered) reordered, ?_, ?_, ?_⟩
  · exact collectAndAppend_ok (by rw [hin]; exact hn) (by rw [hin]; exact hre)
  · rw [appendResults_Stdout, appendResults_Stdout]
  · rw [appendResults_Stderr, appendResults_Stderr]

/-- C3 amended, evaluated on one case. -/
theorem rerun_appends_again_witness :
    ∃ outs errs : List String,
      outs.length = 1 ∧ errs.length = 1 ∧
      ["b3V0"] = [] ++ outs ∧ [""] = [] ++ errs ∧
      ∃ again,
        collectAndAppend stdLib ⟨"s", "py", "", [""], [[]], [1], [8], ["b3V0"], [""], ""⟩
          [⟨0, "out", ""⟩] = .ok again ∧
        again.Stdout = [] ++ outs ++ outs ∧ again.Stderr = [] ++ errs ++ errs :=
  rerun_appends_again stdLib ⟨"s", "py", "", [""], [[]], [1], [8], [], [], ""⟩
    ⟨"s", "py", "", [""], [[]], [1], [8], ["b3V0"], [""], ""⟩ [⟨0, "out", ""⟩] rfl

/-! ## Lemmas on the drivers -/

theorem published_append (xs ys : List Action) :
    published (xs ++ ys) = published xs ++ published ys := by
  simp [published, List.filterMap_append]

theorem published_executeCode (languages_details : Registry) (code input language : String)
    (time_limit mem_limit_mb : Int) (submission_id : String) (submission_index : Int)
    (ev : WaitEvent) (logs : LogsResult) :
    published (executeCode languages_details code input language time_limit mem_limit_mb
        submission_id submission_index ev logs)
      = published (executeSelect submission_index ev logs) := by
  simp [executeCode, published_append, published]

theorem published_compileCode (languages_details : Registry) (code input language : String)
    (time_limit mem_limit_mb : Int) (submission_id : String) (submission_index : Int)
    (sandbox : Sandbox) :
    published (compileCode languages_details code input language time_limit mem_limit_mb
        submission_id submission_index sandbox)
      = published (compileSelect submission_index sandbox.compileEvent sandbox.compileLogs).1
        ++ (if (compileSelect submission_index sandbox.compileEvent sandbox.compileLogs).2 then
              published (compileCodeExecuteSelect submission_id submission_index
                sandbox.executeEvent sandbox.executeLogs)
            else []) := by
  unfold compileCode
  split_ifs with h
  · simp [published_append, compileCodeExecute, h, published]
  · simp [published_append, h, published]

/-- The first `select` of `compileCode` falls through to the execute phase
unless the event is parent cancellation or exit status 1. -/
theorem compileSelect_falls_through (submission_index : Int) (ev : WaitEvent)
    (logs : LogsResult) (hc : ev ≠ .cancelled) (h1 : ev ≠ .statusCh 1) :
    (compileSelect submission_index ev logs).2 = true := by
  cases ev with
  | errCh err => rfl
  | deadline => rfl
  | statusCh c =>
    have : c ≠ 1 := fun h => h1 (by rw [h])
    simp [compileSelect, this]
  | cancelled => exact absurd rfl hc

/-- C4, evaluated where it fails: on exit status 137 the interpreter path
publishes two outcomes for the case, the sentinel and then the container logs;
in the compiler path a compile deadline publishes the compile sentinel and the
execute phase then publishes a second outcome. -/
theorem exit_137_publishes_twice :
    published (RunCode [("py", [("type", "interpreter"), ("execute", "python code.py")])]
        "code" "in" "py" 1 8 0 "s" ⟨.cancelled, .ok ("", ""), .statusCh 137, .ok ("out", "err")⟩)
      = [⟨0, "", "Memory Limit Exceeded"⟩, ⟨0, "out", "err"⟩] ∧
    published (RunCode [("c", [("type", "compiler"), ("compile", "gcc code.c"),
          ("execute", "./a.out")])]
        "code" "in" "c" 1 8 0 "s" ⟨.deadline, .ok ("", ""), .statusCh 0, .ok ("out", "")⟩)
      = [⟨0, "", "Compile Time Limit Exceeded"⟩, ⟨0, "out", ""⟩] := by
  constructor <;> decide

/-- C5 as stated fails: in the execute phase that follows a compile, an elapsed
deadline publishes stderr "Run Time Limit Exceeded", not "Time Limit Exceeded". -/
theorem deadline_sentinel_counterexample :
    published (RunCode [("c", [("type", "compiler"), ("compile", "gcc code.c"),
          ("execute", "./a.out")])]
        "code" "in" "c" 1 8 0 "s" ⟨.statusCh 0, .ok ("", ""), .deadline, .ok ("", "")⟩)
      = [⟨0, "", "Run Time Limit Exceeded"⟩] ∧
    ¬ ∃ r ∈ published (RunCode [("c", [("type", "compiler"), ("compile", "gcc code.c"),
          ("execute", "./a.out")])]
        "code" "in" "c" 1 8 0 "s" ⟨.statusCh 0, .ok ("", ""), .deadline, .ok ("", "")⟩),
        r.Stderr = "Time Limit Exceeded" := by
  constructor <;> decide

/-- C5, amended. When a phase deadline elapses the outcome published has empty
stdout and stderr "Time Limit Exceeded" in the interpreter execute phase,
"Compile Time Limit Exceeded" in the compile phase (the first outcome
`compileCode` publishes), and "Run Time Limit Exceeded" in the execute phase
after a compile (the last outcome `compileCode` publishes, whenever that phase
is reached). -/
theorem deadline_sentinel (languages_details : Registry) (code input language : String)
    (time_limit mem_limit_mb : Int) (submission_id : String) (submission_index : Int)
    (compileEvent : WaitEvent) (logs compileLogs executeLogs : LogsResult)
    (executeEvent : WaitEvent)
    (hc : compileEvent ≠ .cancelled) (h1 : compileEvent ≠ .statusCh 1) :
    published (executeCode languages_details code input language time_limit mem_limit_mb
        submission_id submission_index .deadline logs)
      = [⟨submission_index, "", "Time Limit Exceeded"⟩] ∧
    (published (compileCode languages_details code input language time_limit mem_limit_mb
        submission_id submission_index ⟨.deadline, compileLogs, executeEvent, executeLogs⟩)).head?
      = some ⟨submission_index, "", "Compile Time Limit Exceeded"⟩ ∧
    (published (compileCode languages_details code input language time_limit mem_limit_mb
        submission_id submission_index ⟨compileEvent, compileLogs, .deadline, executeLogs⟩)).getLast?
      = some ⟨submission_index, "", "Run Time Limit Exceeded"⟩ := by
  refine ⟨?_, ?_, ?_⟩
  · rw [published_executeCode]; rfl
  · rw [published_compileCode]; rfl
  · rw [published_compileCode]
    simp only [compileSelect_falls_through submission_index compileEvent compileLogs hc h1,
      if_true]
    simp [compileCodeExecuteSelect, published, putSentinel]

/-- C5 amended, evaluated with a compile that exits 0. -/
theorem deadline_sentinel_witness :
    published (executeCode [] "code" "in" "c" 1 8 "s" 0 .deadline (.ok ("", "")))
      = [⟨0, "", "Time Limit Exceeded"⟩] ∧
    (published (compileCode [] "code" "in" "c" 1 8 "s" 0
        ⟨.deadline, .ok ("", ""), .statusCh 0, .ok ("", "")⟩)).head?
      = some ⟨0, "", "Compile Time Limit Exceeded"⟩ ∧
    (published (compileCode [] "code" "in" "c" 1 8 "s" 0
        ⟨.statusCh 0, .ok ("", ""), .deadline, .ok ("", "")⟩)).getLast?
      = some ⟨0, "", "Run Time Limit Exceeded"⟩ :=
  deadline_sentinel [] "code" "in" "c" 1 8 "s" 0 (.statusCh 0) (.ok ("", "")) (.ok ("", ""))
    (.ok ("", "")) (.statusCh 0) (by decide) (by decide)

/-- C6. On exit status 137 an outcome with empty stdout is published whose
stderr is "Memory Limit Exceeded" in the interpreter execute phase, "Compile
Memory Limit Exceeded" in the compile phase, and "Run Time Memory Limit
Exceeded" in the execute phase after a compile (whenever that phase is
reached). -/
theorem exit_137_sentinel (languages_details : Registry) (code input language : String)
    (time_limit mem_limit_mb : Int) (submission_id : String) (submission_index : Int)
    (compileEvent : WaitEvent) (logs compileLogs executeLogs : LogsResult)
    (executeEvent : WaitEvent)
    (hc : compileEvent ≠ .cancelled) (h1 : compileEvent ≠ .statusCh 1) :
    (⟨submission_index, "", "Memory Limit Exceeded"⟩ : Execution_Result) ∈
      published (executeCode languages_details code input language time_limit mem_limit_mb
        submission_id submission_index (.statusCh 137) logs) ∧
    (⟨submission_index, "", "Compile Memory Limit Exceeded"⟩ : Execution_Result) ∈
      published (compileCode languages_details code input language time_limit mem_limit_mb
        submission_id submission_index
        ⟨.statusCh 137, compileLogs, executeEvent, executeLogs⟩) ∧
    (⟨submission_index, "", "Run Time Memory Limit Exceeded"⟩ : Execution_Result) ∈
      published (compileCode languages_details code input language time_limit mem_limit_mb
        submission_id submission_index
        ⟨compileEvent, compileLogs, .statusCh 137, executeLogs⟩) := by
  refine ⟨?_, ?_, ?_⟩
  · rw [published_executeCode]
    simp [executeSelect, published, putSentinel]
  · rw [published_compileCode]
    simp [compileSelect, published, putSentinel]
  · rw [published_compileCode]
    simp only [compileSelect_falls_through submission_index compileEvent compileLogs hc h1,
      if_true]
    simp [compileCodeExecuteSelect, published, putSentinel]

/-- C6, evaluated with a compile that exits 0. -/
theorem exit_137_sentinel_witness :
    (⟨0, "", "Memory Limit Exceeded"⟩ : Execution_Result) ∈
      published (executeCode [] "code" "in" "c" 1 8 "s" 0 (.statusCh 137) (.ok ("", ""))) ∧
    (⟨0, "", "Compile Memory Limit Exceeded"⟩ : Execution_Result) ∈
      published (compileCode [] "code" "in" "c" 1 8 "s" 0
        ⟨.statusCh 137, .ok ("", ""), .statusCh 0, .ok ("", "")⟩) ∧
    (⟨0, "", "Run Time Memory Limit Exceeded"⟩ : Execution_Result) ∈
      published (compileCode [] "code" "in" "c" 1 8 "s" 0
        ⟨.statusCh 0, .ok ("", ""), .statusCh 137, .ok ("", "")⟩) :=
  exit_137_sentinel [] "code" "in" "c" 1 8 "s" 0 (.statusCh 0) (.ok ("", "")) (.ok ("", ""))
    (.ok ("", "")) (.statusCh 0) (by decide) (by decide)

/-- C7, evaluated where it fails: after a compile deadline, exit 137 or exit 127
`compileCode` publishes the compile sentinel and still creates and starts the
execute container; after another nonzero exit such as 2 it publishes nothing
for the compile phase and starts the execute container too.  Only exit status 1
stops before the execute phase. -/
theorem compile_failure_still_executes (languages_details : Registry)
    (code input language : String) (time_limit mem_limit_mb : Int) (submission_id : String)
    (submission_index : Int) (compileLogs executeLogs : LogsResult) (executeEvent : WaitEvent) :
    (∀ ev ∈ [WaitEvent.deadline, .statusCh 137, .statusCh 127, .statusCh 2],
      Action.ContainerStart .executeResp ∈
        compileCode languages_details code input language time_limit mem_limit_mb
          submission_id submission_index ⟨ev, compileLogs, executeEvent, executeLogs⟩) ∧
    published (compileSelect submission_index (.statusCh 2) compileLogs).1 = [] ∧
    Action.ContainerStart .executeResp ∉
      compileCode languages_details code input language time_limit mem_limit_mb
        submission_id submission_index ⟨.statusCh 1, compileLogs, executeEvent, executeLogs⟩ := by
  refine ⟨?_, rfl, ?_⟩
  · intro ev hev
    simp only [List.mem_cons, List.mem_singleton, List.not_mem_nil, or_false] at hev
    rcases hev with rfl | rfl | rfl | rfl <;>
      simp [compileCode, compileSelect, compileCodeExecute]
  · rcases compileLogs with e | ⟨o, e⟩ <;>
      simp [compileCode, compileSelect, putSentinel]

/-- C8, evaluated where it fails: a non-nil error received while awaiting the
compile container publishes stderr "Time Limit Exceeded"; the interpreter
execute phase publishes "Sandbox error, try to run again" for the same event. -/
theorem compile_wait_error_sentinel (languages_details : Registry)
    (code input language : String) (time_limit mem_limit_mb : Int) (submission_id : String)
    (submission_index : Int) (err : String) (logs compileLogs executeLogs : LogsResult)
    (executeEvent : WaitEvent) :
    (published (compileCode languages_details code input language time_limit mem_limit_mb
        submission_id submission_index
        ⟨.errCh (some err), compileLogs, executeEvent, executeLogs⟩)).head?
      = some ⟨submission_index, "", "Time Limit Exceeded"⟩ ∧
    published (executeCode languages_details code input language time_limit mem_limit_mb
        submission_id submission_index (.errCh (some err)) logs)
      = [⟨submission_index, "", "Sandbox error, try to run again"⟩] := by
  constructor
  · rw [published_compileCode]; rfl
  · rw [published_executeCode]; rfl

/-- C9, evaluated where it fails: when the compile container exits with status
1 `compileCode` returns without removing the scratch volume; when the execute
deadline elapses after a successful compile it removes neither the compile
container nor the volume; on parent cancellation it removes nothing. -/
theorem compileCode_leaks_volume (languages_details : Registry)
    (code input language : String) (time_limit mem_limit_mb : Int) (submission_id : String)
    (submission_index : Int) (stdoutput stderror : String) (compileLogs executeLogs : LogsResult)
    (executeEvent : WaitEvent) :
    (∀ name, Action.VolumeRemove name ∉
      compileCode languages_details code input language time_limit mem_limit_mb
        submission_id submission_index
        ⟨.statusCh 1, .ok (stdoutput, stderror), executeEvent, executeLogs⟩) ∧
    (∀ name, Action.VolumeRemove name ∉
      compileCode languages_details code input language time_limit mem_limit_mb
        submission_id submission_index ⟨.statusCh 0, compileLogs, .deadline, executeLogs⟩) ∧
    Action.ContainerRemove .compilingResp ∉
      compileCode languages_details code input language time_limit mem_limit_mb
        submission_id submission_index ⟨.statusCh 0, compileLogs, .deadline, executeLogs⟩ ∧
    (∀ a ∈ compileCode languages_details code input language time_limit mem_limit_mb
        submission_id submission_index ⟨.cancelled, compileLogs, executeEvent, executeLogs⟩,
      (∀ c, a ≠ .ContainerRemove c) ∧ ∀ name, a ≠ .VolumeRemove name) := by
  refine ⟨?_, ?_, ?_, ?_⟩
  · intro name
    simp [compileCode, compileSelect, putSentinel]
  · intro name
    simp [compileCode, compileSelect, compileCodeExecute, compileCodeExecuteSelect, putSentinel]
  · simp [compileCode, compileSelect, compileCodeExecute, compileCodeExecuteSelect, putSentinel]
  · intro a ha
    simp only [compileCode, compileSelect, List.append_nil, List.mem_cons, List.mem_singleton,
      List.not_mem_nil, or_false, Bool.false_eq_true, if_false] at ha
    rcases ha with rfl | rfl | rfl | rfl | rfl <;> simp

/-! ## Lemmas on the fan-out loop -/

theorem applyReplaces_eq_foldl (lib : GoLib) (replaces : List Replace) :
    ∀ code : String,
      applyReplaces lib code replaces
        = replaces.foldl
            (fun code r => lib.ReplaceAll code (lib.DecodeString r.From) (lib.DecodeString r.To))
            code := by
  induction replaces with
  | nil => intro code; rfl
  | cons r rest ih => intro code; simp [applyReplaces, ih]

theorem index_ok {α : Type} {xs : List α} {i : Nat} {x : α} (h : xs[i]? = some x) :
    index xs i = .ok x := by
  simp [index, h]

theorem index_inv {α : Type} {xs : List α} {i : Nat} {x : α} (h : index xs i = .ok x) :
    xs[i]? = some x := by
  unfold index at h
  split at h
  · next y hy => cases h; exact hy
  · cases h

theorem fanOutBody_ok {lib : GoLib} {submission : Submission} {submission_id : String}
    {i : Nat} {code_input : String} {replaces : List Replace} {time_limit mem_limit : Int}
    (hr : submission.Replace[i]? = some replaces)
    (ht : submission.TimeLimit[i]? = some time_limit)
    (hm : submission.MemoryLimit[i]? = some mem_limit) :
    fanOutBody lib submission submission_id i code_input
      = .ok ⟨applyReplaces lib (lib.DecodeString submission.Code) replaces,
          lib.DecodeString code_input, submission.Language, time_limit, mem_limit, i,
          submission_id⟩ := by
  simp [fanOutBody, index_ok hr, index_ok ht, index_ok hm, bind, Except.bind, pure, Except.pure]

theorem fanOutBody_inv {lib : GoLib} {submission : Submission} {submission_id : String}
    {i : Nat} {code_input : String} {call : RunCodeCall}
    (h : fanOutBody lib submission submission_id i code_input = .ok call) :
    ∃ replaces, submission.Replace[i]? = some replaces ∧
      call.code = applyReplaces lib (lib.DecodeString submission.Code) replaces ∧
      call.submission_index = (i : Int) := by
  unfold fanOutBody at h
  cases hr : index submission.Replace i with
  | error e => simp [hr, bind, Except.bind] at h
  | ok replaces =>
    cases ht : index submission.TimeLimit i with
    | error e => simp [hr, ht, bind, Except.bind] at h
    | ok tl =>
      cases hm : index submission.MemoryLimit i with
      | error e => simp [hr, ht, hm, bind, Except.bind] at h
      | ok ml =>
        simp [hr, ht, hm, bind, Except.bind, pure, Except.pure] at h
        subst h
        exact ⟨replaces, index_inv hr, rfl, rfl⟩

theorem fanOutFrom_cons_ok {lib : GoLib} {submission : Submission} {submission_id : String}
    {start : Nat} {code_input : String} {rest : List String} {call : RunCodeCall}
    {calls : List RunCodeCall}
    (hb : fanOutBody lib submission submission_id start code_input = .ok call)
    (hrest : fanOutFrom lib submission submission_id (start + 1) rest = .ok calls) :
    fanOutFrom lib submission submission_id start (code_input :: rest) = .ok (call :: calls) := by
  simp only [fanOutFrom, hb, hrest, bind, Except.bind, pure, Except.pure]

theorem fanOutFrom_inv (lib : GoLib) (submission : Submission) (submission_id : String)
    (inputs : List String) :
    ∀ (start : Nat) (calls : List RunCodeCall),
      fanOutFrom lib submission submission_id start inputs = .ok calls →
      calls.length = inputs.length ∧
      ∀ k call, calls[k]? = some call →
        ∃ code_input, fanOutBody lib submission submission_id (start + k) code_input = .ok call := by
  induction inputs with
  | nil =>
    intro start calls h
    simp [fanOutFrom] at h
    subst h
    simp
  | cons code_input rest ih =>
    intro start calls h
    unfold fanOutFrom at h
    cases hb : fanOutBody lib submission submission_id start code_input with
    | error e => simp [hb, bind, Except.bind] at h
    | ok call0 =>
      cases hrest : fanOutFrom lib submission submission_id (start + 1) rest with
      | error e => simp [hb, hrest, bind, Except.bind] at h
      | ok calls0 =>
        simp [hb, hrest, bind, Except.bind, pure, Except.pure] at h
        subst h
        obtain ⟨hl, hk⟩ := ih (start + 1) calls0 hrest
        refine ⟨by simp [hl], ?_⟩
        intro k call hget
        cases k with
        | zero =>
          simp at hget
          subst hget
          exact ⟨code_input, hb⟩
        | succ k =>
          simp at hget
          obtain ⟨ci, hci⟩ := hk k call hget
          exact ⟨ci, by rw [show start + (k + 1) = start + 1 + k by omega]; exact hci⟩

theorem fanOutFrom_ok (lib : GoLib) (submission : Submission) (submission_id : String)
    (inputs : List String) :
    ∀ start : Nat,
      start + inputs.length ≤ submission.Replace.length →
      start + inputs.length ≤ submission.TimeLimit.length →
      start + inputs.length ≤ submission.MemoryLimit.length →
      ∃ calls, fanOutFrom lib submission submission_id start inputs = .ok calls := by
  induction inputs with
  | nil => intro start _ _ _; exact ⟨[], rfl⟩
  | cons code_input rest ih =>
    intro start hr ht hm
    simp only [List.length_cons] at hr ht hm
    obtain ⟨calls, hcalls⟩ := ih (start + 1) (by omega) (by omega) (by omega)
    have h1 : start < submission.Replace.length := by omega
    have h2 : start < submission.TimeLimit.length := by omega
    have h3 : start < submission.MemoryLimit.length := by omega
    have hb := @fanOutBody_ok lib submission submission_id start code_input _ _ _
      (List.getElem?_eq_getElem h1) (List.getElem?_eq_getElem h2) (List.getElem?_eq_getElem h3)
    exact ⟨_, fanOutFrom_cons_ok hb hcalls⟩

/-- C10. For a record with a replacement list, time limit and memory limit per
case, the fan-out loop starts one `RunCode` per case, and the source handed to
the runner of case i is the left-to-right fold, over `replace[i]`, of
`bytes.Replace(code, decoded from, decoded to, -1)` starting from the decoded
submission code; so it is the same for any record with the same code and the
same `replace[i]`, whatever the other replacement lists. -/
theorem replacement_law (lib : GoLib) (submission : Submission) (submission_id : String)
    (hr : submission.Stdin.length ≤ submission.Replace.length)
    (ht : submission.Stdin.length ≤ submission.TimeLimit.length)
    (hm : submission.Stdin.length ≤ submission.MemoryLimit.length) :
    ∃ calls, fanOut lib submission submission_id = .ok calls ∧
      calls.length = submission.Stdin.length ∧
      (∀ i, i < submission.Stdin.length →
        ∃ call L, calls[i]? = some call ∧ submission.Replace[i]? = some L ∧
          call.submission_index = (i : Int) ∧
          call.code = L.foldl
            (fun code r => lib.ReplaceAll code (lib.DecodeString r.From) (lib.DecodeString r.To))
            (lib.DecodeString submission.Code)) ∧
      (∀ (other : Submission) (other_id : String) (calls2 : List RunCodeCall) (i : Nat)
          (call call2 : RunCodeCall),
        fanOut lib other other_id = .ok calls2 →
        other.Code = submission.Code → other.Replace[i]? = submission.Replace[i]? →
        calls[i]? = some call → calls2[i]? = some call2 → call2.code = call.code) := by
  obtain ⟨calls, hcalls⟩ := fanOutFrom_ok lib submission submission_id submission.Stdin 0
    (by omega) (by omega) (by omega)
  obtain ⟨hlen, hbody⟩ := fanOutFrom_inv lib submission submission_id submission.Stdin 0 calls hcalls
  refine ⟨calls, hcalls, hlen, ?_, ?_⟩
  · intro i hi
    have hi' : i < calls.length := by omega
    obtain ⟨ci, hci⟩ := hbody i calls[i] (List.getElem?_eq_getElem hi')
    rw [Nat.zero_add] at hci
    obtain ⟨L, hL, hcode, hidx⟩ := fanOutBody_inv hci
    exact ⟨calls[i], L, List.getElem?_eq_getElem hi', hL, hidx,
      by rw [hcode, applyReplaces_eq_foldl]⟩
  · intro other other_id calls2 i call call2 hother hcode hrep hget hget2
    obtain ⟨-, hbody2⟩ := fanOutFrom_inv lib other other_id other.Stdin 0 calls2 hother
    obtain ⟨ci, hci⟩ := hbody i call hget
    obtain ⟨ci2, hci2⟩ := hbody2 i call2 hget2
    rw [Nat.zero_add] at hci hci2
    obtain ⟨L, hL, hc, -⟩ := fanOutBody_inv hci
    obtain ⟨L2, hL2, hc2, -⟩ := fanOutBody_inv hci2
    rw [hrep, hL] at hL2
    cases hL2
    rw [hc, hc2, hcode]

/-- C10, evaluated on a record with two cases, the first replacing X by Y and
the second replacing X by Z. -/
theorem replacement_law_witness :
    ∃ calls, fanOut stdLib exampleSubmission "s" = .ok calls ∧
      calls.length = exampleSubmission.Stdin.length ∧
      (∀ i, i < exampleSubmission.Stdin.length →
        ∃ call L, calls[i]? = some call ∧ exampleSubmission.Replace[i]? = some L ∧
          call.submission_index = (i : Int) ∧
          call.code = L.foldl
            (fun code r =>
              stdLib.ReplaceAll code (stdLib.DecodeString r.From) (stdLib.DecodeString r.To))
            (stdLib.DecodeString exampleSubmission.Code)) ∧
      (∀ (other : Submission) (other_id : String) (calls2 : List RunCodeCall) (i : Nat)
          (call call2 : RunCodeCall),
        fanOut stdLib other other_id = .ok calls2 →
        other.Code = exampleSubmission.Code →
        other.Replace[i]? = exampleSubmission.Replace[i]? →
        calls[i]? = some call → calls2[i]? = some call2 → call2.code = call.code) :=
  replacement_law stdLib exampleSubmission "s" (by decide) (by decide) (by decide)

/-- The fan-out of the example record: each case runs the code with its own
replacement only. -/
theorem fanOut_exampleSubmission :
    (fanOut stdLib exampleSubmission "s").toOption.map (List.map (·.code))
      = some ["print('Y')", "print('Z')"] := by
  decide


/-! ## Unknown language and parent cancellation -/

/-- C11. For a language name with no registry entry `RunCode` issues exactly
one call, the publication of {index, "", "Unsupported language"}: it publishes
that one outcome and makes no container-runtime call (neither `executeCode` nor
`compileCode` is entered). -/
theorem unsupported_language (languages_details : Registry) (code input language : String)
    (time_limit mem_limit_mb : Int) (submission_index : Int) (submission_id : String)
    (sandbox : Sandbox) (h : languages_details.lookup language = none) :
    RunCode languages_details code input language time_limit mem_limit_mb submission_index
        submission_id sandbox
      = [.Put_Execution_Result_To_Channel ⟨submission_index, "", "Unsupported language"⟩] ∧
    published (RunCode languages_details code input language time_limit mem_limit_mb
        submission_index submission_id sandbox)
      = [⟨submission_index, "", "Unsupported language"⟩] := by
  have hty : languages_details.get language "type" = "" := by
    simp [Registry.get, h]
  have hrun : RunCode languages_details code input language time_limit mem_limit_mb
      submission_index submission_id sandbox
      = [.Put_Execution_Result_To_Channel ⟨submission_index, "", "Unsupported language"⟩] := by
    unfold RunCode
    rw [hty]
    simp [putSentinel]
  exact ⟨hrun, by rw [hrun]; rfl⟩

/-- C11, evaluated on a registry that knows only `py`, for the language `rb`. -/
theorem unsupported_language_witness :
    RunCode [("py", [("type", "interpreter"), ("execute", "python code.py")])]
        "code" "in" "rb" 1 8 3 "s" ⟨.statusCh 0, .ok ("", ""), .statusCh 0, .ok ("out", "")⟩
      = [.Put_Execution_Result_To_Channel ⟨3, "", "Unsupported language"⟩] ∧
    published (RunCode [("py", [("type", "interpreter"), ("execute", "python code.py")])]
        "code" "in" "rb" 1 8 3 "s" ⟨.statusCh 0, .ok ("", ""), .statusCh 0, .ok ("out", "")⟩)
      = [⟨3, "", "Unsupported language"⟩] :=
  unsupported_language [("py", [("type", "interpreter"), ("execute", "python code.py")])]
    "code" "in" "rb" 1 8 3 "s" ⟨.statusCh 0, .ok ("", ""), .statusCh 0, .ok ("out", "")⟩
    (by decide)

/-- C12. When parent cancellation is the event picked at an await point the
driver writes nothing to the outcome channel there: `executeCode` publishes
nothing; `compileCode` cancelled while awaiting the compile container publishes
nothing; `compileCode` cancelled while awaiting the execute container publishes
nothing at that point, so only what the first `select` had published, which is
nothing after a compile that exits 0. -/
theorem cancellation_publishes_nothing (languages_details : Registry)
    (code input language : String) (time_limit mem_limit_mb : Int) (submission_id : String)
    (submission_index : Int) (compileEvent executeEvent : WaitEvent)
    (logs compileLogs executeLogs : LogsResult) :
    published (executeCode languages_details code input language time_limit mem_limit_mb
        submission_id submission_index .cancelled logs) = [] ∧
    published (compileCode languages_details code input language time_limit mem_limit_mb
        submission_id submission_index ⟨.cancelled, compileLogs, executeEvent, executeLogs⟩)
      = [] ∧
    published (compileCodeExecuteSelect submission_id submission_index .cancelled executeLogs)
      = [] ∧
    published (compileCode languages_details code input language time_limit mem_limit_mb
        submission_id submission_index ⟨compileEvent, compileLogs, .cancelled, executeLogs⟩)
      = published (compileSelect submission_index compileEvent compileLogs).1 ∧
    published (compileCode languages_details code input language time_limit mem_limit_mb
        submission_id submission_index ⟨.statusCh 0, compileLogs, .cancelled, executeLogs⟩)
      = [] := by
  refine ⟨?_, ?_, rfl, ?_, ?_⟩
  · rw [published_executeCode]; rfl
  · rw [published_compileCode]; rfl
  · rw [published_compileCode]
    have : published (compileCodeExecuteSelect submission_id submission_index .cancelled
        executeLogs) = [] := rfl
    simp [this]
  · rw [published_compileCode]; rfl


/-! ## Save, judge and status update -/

theorem appendResults_eq (lib : GoLib) (reordered : List Execution_Result) :
    ∀ submission : Submission,
      appendResults lib submission reordered
        = { submission with
            Stdout := submission.Stdout ++ reordered.map (fun r => lib.EncodeToString r.Stdout)
            Stderr := submission.Stderr ++ reordered.map (fun r => lib.EncodeToString r.Stderr) } := by
  induction reordered with
  | nil => intro s; simp [appendResults]
  | cons r rs ih =>
    intro s
    have := ih { s with
      Stdout := s.Stdout ++ [lib.EncodeToString r.Stdout]
      Stderr := s.Stderr ++ [lib.EncodeToString r.Stderr] }
    simp only [appendResults, List.foldl_cons] at this ⊢
    rw [this]; simp

theorem Message_Handler_inv {lib : GoLib} {submission_id : String} {submission : Submission}
    {arrivals : List Execution_Result} {response : Except String Int}
    {after : Submission} {handled : Handled}
    (h : Message_Handler lib submission_id submission arrivals response after = .ok handled) :
    ∃ calls saved, fanOut lib submission submission_id = .ok calls ∧
      collectAndAppend lib submission arrivals = .ok saved ∧
      handled = ⟨calls, saveAndJudge saved response after⟩ := by
  unfold Message_Handler at h
  cases hf : fanOut lib submission submission_id with
  | error e => simp [hf, bind, Except.bind] at h
  | ok calls =>
    cases hc : collectAndAppend lib submission arrivals with
    | error e => simp [hf, hc, bind, Except.bind] at h
    | ok saved =>
      simp [hf, hc, bind, Except.bind, pure, Except.pure] at h
      exact ⟨calls, saved, rfl, rfl, h.symm⟩

/-- C13. In a run of `Message_Handler` that completes, the first record saved
carries the status that was loaded; a second record is saved if and only if
`Judge_Submission` returns 200, and it is the re-read record with status "done
execution"; for every other return value (another code, or -1 on a transport
error or an empty submission id) the first save is the only one. -/
theorem status_update_iff_200 (lib : GoLib) (submission_id : String) (submission : Submission)
    (arrivals : List Execution_Result) (response : Except String Int)
    (after : Submission) (handled : Handled)
    (h : Message_Handler lib submission_id submission arrivals response after = .ok handled) :
    (∃ first, handled.saves.head? = some first ∧ first.Status = submission.Status ∧
      first.SubmissionID = submission.SubmissionID) ∧
    ((Judge_Submission submission.SubmissionID response).1 = 200 ↔
      handled.saves[1]? = some { after with Status := "done execution" }) ∧
    ((Judge_Submission submission.SubmissionID response).1 ≠ 200 →
      handled.saves.length = 1 ∧ ∀ w ∈ handled.saves, w.Status = submission.Status) ∧
    ((Judge_Submission submission.SubmissionID response).1 = 200 ↔
      submission.SubmissionID ≠ "" ∧ response = .ok 200) := by
  obtain ⟨calls, saved, -, hc, rfl⟩ := Message_Handler_inv h
  obtain ⟨-, reordered, -, rfl⟩ := collectAndAppend_inv hc
  rw [appendResults_eq]
  refine ⟨⟨_, rfl, rfl, rfl⟩, ?_, ?_, ?_⟩
  · by_cases h200 : (Judge_Submission submission.SubmissionID response).1 = 200
    · simp [saveAndJudge, h200]
    · simp [saveAndJudge, h200]
  · intro h200
    simp [saveAndJudge, h200]
  · unfold Judge_Submission
    by_cases hid : submission.SubmissionID = ""
    · simp [hid]
    · cases response with
      | error e => simp [hid]
      | ok c => simp [hid]

/-- C13, evaluated on the example record with a judge that answers 200. -/
theorem status_update_iff_200_witness :
    (∃ first, [({ exampleSubmission with Stdout := ["YQ==", "Yg=="], Stderr := ["", ""] } :
        Submission), { exampleSubmission with Status := "done execution" }].head? = some first ∧
      first.Status = exampleSubmission.Status ∧
      first.SubmissionID = exampleSubmission.SubmissionID) ∧
    ((Judge_Submission exampleSubmission.SubmissionID (.ok 200)).1 = 200 ↔
      [({ exampleSubmission with Stdout := ["YQ==", "Yg=="], Stderr := ["", ""] } :
        Submission), { exampleSubmission with Status := "done execution" }][1]?
        = some { exampleSubmission with Status := "done execution" }) ∧
    ((Judge_Submission exampleSubmission.SubmissionID (.ok 200)).1 ≠ 200 →
      [({ exampleSubmission with Stdout := ["YQ==", "Yg=="], Stderr := ["", ""] } :
        Submission), { exampleSubmission with Status := "done execution" }].length = 1 ∧
      ∀ w ∈ [({ exampleSubmission with Stdout := ["YQ==", "Yg=="], Stderr := ["", ""] } :
        Submission), { exampleSubmission with Status := "done execution" }],
        w.Status = exampleSubmission.Status) ∧
    ((Judge_Submission exampleSubmission.SubmissionID (.ok 200)).1 = 200 ↔
      exampleSubmission.SubmissionID ≠ "" ∧ (Except.ok 200 : Except String Int) = .ok 200) :=
  status_update_iff_200 stdLib "s" exampleSubmission [⟨1, "b", ""⟩, ⟨0, "a", ""⟩] (.ok 200)
    exampleSubmission
    ⟨[⟨"print('Y')", "", "py", 1, 8, 0, "s"⟩, ⟨"print('Z')", "", "py", 1, 8, 1, "s"⟩],
      [{ exampleSubmission with Stdout := ["YQ==", "Yg=="], Stderr := ["", ""] },
        { exampleSubmission with Status := "done execution" }]⟩
    rfl


/-! ## The guard channel -/

theorem Sched.inv_init : Sched.init.Inv := by
  simp [Sched.Inv, Sched.init]

theorem Sched.inv_step (n : Nat) (s t : Sched) (e : SchedStep) (hs : s.Inv)
    (h : Sched.step n s e = some t) : t.Inv := by
  obtain ⟨hcount, hcap⟩ := hs
  cases e with
  | acquire =>
    simp only [Sched.step] at h
    split_ifs at h with hc
    cases h
    obtain ⟨-, hacq, hlt⟩ := hc
    simp only [hacq, Bool.false_eq_true, if_false] at hcount
    simp only [Sched.Inv, if_true]
    omega
  | go =>
    simp only [Sched.step] at h
    split_ifs at h with hc
    cases h
    simp only [hc, if_true] at hcount
    simp only [Sched.Inv, Bool.false_eq_true, if_false, List.length_cons]
    omega
  | runCodeReturns i =>
    simp only [Sched.step] at h
    split_ifs at h with hc
    cases h
    have hlen := List.length_erase_of_mem hc
    have hpos : 0 < s.running.length := List.length_pos_of_mem hc
    simp only [Sched.Inv, List.length_cons]
    omega
  | release i =>
    simp only [Sched.step] at h
    split_ifs at h with hc
    cases h
    have hlen := List.length_erase_of_mem hc.1
    have hpos : 0 < s.returned.length := List.length_pos_of_mem hc.1
    simp only [Sched.Inv]
    omega

theorem Sched.inv_run (n : Nat) (steps : List SchedStep) :
    ∀ s t : Sched, s.Inv → Sched.run n s steps = some t → t.Inv := by
  induction steps with
  | nil =>
    intro s t hs h
    simp only [Sched.run, Option.some.injEq] at h
    exact h ▸ hs
  | cons e es ih =>
    intro s t hs h
    simp only [Sched.run] at h
    cases hstep : Sched.step n s e with
    | none => simp [hstep] at h
    | some u =>
      simp only [hstep] at h
      exact ih u t (Sched.inv_step n s u e hs hstep) h

/-- C14. In every state one submission reaches by interleaving the steps of the
fan-out loop and of its goroutines, at most 2 goroutines are inside `RunCode`;
the guard channel holds at most 2 tokens, one for the iteration that has
acquired and not yet started its goroutine and one for each goroutine started
and not yet past its `<-guard`, which it executes only after `RunCode`
returned. -/
theorem at_most_two_runners (n : Nat) (steps : List SchedStep) (s : Sched)
    (h : Sched.run n Sched.init steps = some s) :
    s.running.length ≤ 2 ∧ s.guard ≤ 2 ∧
      s.guard = (if s.acquired then 1 else 0) + s.running.length + s.returned.length := by
  obtain ⟨hcount, hcap⟩ := Sched.inv_run n steps Sched.init s Sched.inv_init h
  exact ⟨by omega, hcap, hcount⟩

/-- C14, evaluated on three cases: two runners started, the first returned and
released its token, the third started. -/
theorem at_most_two_runners_witness :
    ([2, 1] : List Nat).length ≤ 2 ∧ (2 : Nat) ≤ 2 ∧
      (2 : Nat) = (if false = true then 1 else 0) + ([2, 1] : List Nat).length
        + ([] : List Nat).length :=
  at_most_two_runners 3
    [.acquire, .go, .acquire, .go, .runCodeReturns 0, .release 0, .acquire, .go]
    ⟨3, false, 2, [2, 1], []⟩ (by decide)

/-- With two goroutines inside `RunCode` the loop cannot acquire a third
token. -/
theorem Sched.acquire_blocked (n : Nat) (s : Sched) (hs : s.Inv)
    (h2 : s.running.length = 2) : Sched.step n s .acquire = none := by
  obtain ⟨hcount, hcap⟩ := hs
  have : ¬ s.guard < 2 := by omega
  simp [Sched.step, this]

/-! ## Broker URL -/

theorem replaceFirstChars_prefix (old new rest : List Char) :
    replaceFirstChars old new (old ++ rest) = new ++ rest := by
  cases h : old ++ rest with
  | nil =>
    have ho : old = [] := (List.append_eq_nil.1 h).1
    have hr : rest = [] := (List.append_eq_nil.1 h).2
    simp [replaceFirstChars, ho, hr]
  | cons c cs =>
    have hp : old.isPrefixOf (c :: cs) = true := by
      rw [← h, List.isPrefixOf_iff_prefix]
      exact List.prefix_append _ _
    simp only [replaceFirstChars, hp, if_true]
    rw [← h, List.drop_left]

/-- C15. For every broker URL "amqps://" ++ rest and every username and
password, `injectUsernamePasswordToRabbitMQURL` returns "amqps://" ++
trim(username) ++ ":" ++ trim(password) ++ "@" ++ rest: the credentials are
spliced once, after the scheme prefix, and `rest` is unchanged even when it
contains "amqps://" again. -/
theorem inject_credentials (rest rabbitMQUsername rabbitMQPassword : String) :
    injectUsernamePasswordToRabbitMQURL ("amqps://" ++ rest) rabbitMQUsername rabbitMQPassword
      = "amqps://" ++ TrimSpace rabbitMQUsername ++ ":" ++ TrimSpace rabbitMQPassword ++ "@"
          ++ rest := by
  unfold injectUsernamePasswordToRabbitMQURL stringsReplaceFirst
  apply String.ext
  simp only [String.data_append]
  exact replaceFirstChars_prefix _ _ _

/-- The splice on a URL whose path repeats the scheme text. -/
theorem inject_credentials_example :
    injectUsernamePasswordToRabbitMQURL "amqps://host:5671/amqps://x" " user\n" "\tpw "
      = "amqps://user:pw@host:5671/amqps://x" := by
  decide


/-! ## Index safety -/

/-- Every outcome `RunCode` publishes carries the index it was called with. -/
theorem published_RunCode_index (languages_details : Registry) (code input language : String)
    (time_limit mem_limit_mb : Int) (submission_index : Int) (submission_id : String)
    (sandbox : Sandbox) :
    ∀ r ∈ published (RunCode languages_details code input language time_limit mem_limit_mb
        submission_index submission_id sandbox),
      r.Submission_Index = submission_index := by
  have hexec : ∀ (ev : WaitEvent) (logs : LogsResult),
      ∀ r ∈ published (executeSelect submission_index ev logs),
        r.Submission_Index = submission_index := by
    intro ev logs r hr
    rcases ev with err | _ | c | _ <;> rcases logs with e | ⟨o, e⟩ <;>
      simp only [executeSelect, published, putSentinel] at hr <;>
      (try split_ifs at hr) <;> (try simp at hr) <;> (try aesop)
  have hexec2 : ∀ (ev : WaitEvent) (logs : LogsResult),
      ∀ r ∈ published (compileCodeExecuteSelect submission_id submission_index ev logs),
        r.Submission_Index = submission_index := by
    intro ev logs r hr
    rcases ev with err | _ | c | _ <;> rcases logs with e | ⟨o, e⟩ <;>
      simp only [compileCodeExecuteSelect, published, putSentinel] at hr <;>
      (try split_ifs at hr) <;> (try simp at hr) <;> (try aesop)
  have hcomp : ∀ (ev : WaitEvent) (logs : LogsResult),
      ∀ r ∈ published (compileSelect submission_index ev logs).1,
        r.Submission_Index = submission_index := by
    intro ev logs r hr
    rcases ev with err | _ | c | _ <;> rcases logs with e | ⟨o, e⟩ <;>
      simp only [compileSelect, published, putSentinel] at hr <;>
      (try split_ifs at hr) <;> (try simp at hr) <;> (try aesop)
  intro r hr
  unfold RunCode at hr
  split_ifs at hr
  · rw [published_executeCode] at hr
    exact hexec _ _ r hr
  · rw [published_compileCode] at hr
    rcases List.mem_append.1 hr with h1 | h2
    · exact hcomp _ _ r h1
    · split_ifs at h2
      · exact hexec2 _ _ r h2
      · cases h2
  · simp [published, putSentinel] at hr
    rw [hr]

/-- C16. For a record with len(stdin) = len(time_limit) = len(memory_limit) =
len(replace) = N and N collected outcomes whose indices lie in [0, N), no index
expression of `Message_Handler` is out of range: the fan-out loop reads
`Replace[i]`, `TimeLimit[i]`, `MemoryLimit[i]` for every i < N and stamps the
calls with indices in [0, N), the re-order writes stay inside the length-N
buffer, and the handler runs to its end. -/
theorem no_index_out_of_range (lib : GoLib) (submission_id : String) (submission : Submission)
    (arrivals : List Execution_Result)
    (hr : submission.Replace.length = submission.Stdin.length)
    (ht : submission.TimeLimit.length = submission.Stdin.length)
    (hm : submission.MemoryLimit.length = submission.Stdin.length)
    (hn : submission.Stdin.length ≤ arrivals.length)
    (hidx : ∀ r ∈ arrivals.take submission.Stdin.length,
      0 ≤ r.Submission_Index ∧ r.Submission_Index < submission.Stdin.length) :
    (∃ calls, fanOut lib submission submission_id = .ok calls ∧
      calls.length = submission.Stdin.length ∧
      ∀ call ∈ calls,
        0 ≤ call.submission_index ∧ call.submission_index < submission.Stdin.length) ∧
    (∃ reordered, reorderResults (arrivals.take submission.Stdin.length) = .ok reordered ∧
      reordered.length = submission.Stdin.length) ∧
    (∀ (response : Except String Int) (after : Submission),
      ∃ handled,
        Message_Handler lib submission_id submission arrivals response after = .ok handled) := by
  obtain ⟨calls, hcalls⟩ := fanOutFrom_ok lib submission submission_id submission.Stdin 0
    (by omega) (by omega) (by omega)
  obtain ⟨hlen, hbody⟩ :=
    fanOutFrom_inv lib submission submission_id submission.Stdin 0 calls hcalls
  have hl : (arrivals.take submission.Stdin.length).length = submission.Stdin.length := by
    rw [List.length_take, Nat.min_eq_left hn]
  obtain ⟨out, hre, holen, -⟩ := foldlM_store_spec (arrivals.take submission.Stdin.length)
    (List.replicate (arrivals.take submission.Stdin.length).length zeroResult) (by
      intro r hmem
      have := hidx r hmem
      refine ⟨this.1, ?_⟩
      rw [List.length_replicate, hl]
      omega)
  have hfan : fanOut lib submission submission_id = .ok calls := hcalls
  refine ⟨⟨calls, hfan, hlen, ?_⟩, ⟨out, hre, ?_⟩, ?_⟩
  · intro call hmem
    obtain ⟨k, hk⟩ := List.mem_iff_getElem?.1 hmem
    obtain ⟨ci, hci⟩ := hbody k call hk
    rw [Nat.zero_add] at hci
    obtain ⟨-, -, -, hindex⟩ := fanOutBody_inv hci
    have hklt : k < calls.length := by
      by_contra hge
      rw [List.getElem?_eq_none (by omega)] at hk
      cases hk
    rw [hindex]
    omega
  · rw [holen, List.length_replicate, hl]
  · intro response after
    refine ⟨⟨calls, saveAndJudge (appendResults lib submission out) response after⟩, ?_⟩
    have hc := @collectAndAppend_ok lib submission arrivals out hn hre
    simp only [Message_Handler, hfan, hc, bind, Except.bind, pure, Except.pure]

/-- C16, evaluated on the example record with its two outcomes arriving in the
order 1, 0. -/
theorem no_index_out_of_range_witness :
    (∃ calls, fanOut stdLib exampleSubmission "s" = .ok calls ∧
      calls.length = exampleSubmission.Stdin.length ∧
      ∀ call ∈ calls,
        0 ≤ call.submission_index ∧
          call.submission_index < exampleSubmission.Stdin.length) ∧
    (∃ reordered,
      reorderResults (List.take exampleSubmission.Stdin.length
        [(⟨1, "b", ""⟩ : Execution_Result), ⟨0, "a", ""⟩]) = .ok reordered ∧
      reordered.length = exampleSubmission.Stdin.length) ∧
    (∀ (response : Except String Int) (after : Submission),
      ∃ handled,
        Message_Handler stdLib "s" exampleSubmission [⟨1, "b", ""⟩, ⟨0, "a", ""⟩] response after
          = .ok handled) :=
  no_index_out_of_range stdLib "s" exampleSubmission [⟨1, "b", ""⟩, ⟨0, "a", ""⟩]
    (by decide) (by decide) (by decide) (by decide) (by decide)


end Cee
